import Mathlib

/-!
Verification of the frame-analysis-and-merge pipeline of
`src/views/MemoryGame/processVideoToImage.ts`.

The TypeScript pipeline is shallowly embedded: JS numbers used by the pixel
and ratio arithmetic become `ℚ` (all operations involved are exact rational
operations), integer pixel coordinates become `ℤ`, pixel buffers
(`Uint8ClampedArray`) become total functions `ℤ → ℚ` from byte offsets to
channel values, and the mutation-heavy loops become explicit folds.
`Math.round` is embedded as `⌊q + 1/2⌋` and `Math.floor` as `⌊q⌋`.
-/

namespace MemoryGame

/-- Per-frame aggregate metrics (`FrameMetrics` in processVideoToImage.ts). -/
structure FrameMetrics where
  baselineRatio : ℚ
  motionRatio : ℚ
deriving DecidableEq

/-- Integer pixel rectangle, half-open on the right/bottom edge (`Rect`). -/
structure Rect where
  left : ℤ
  top : ℤ
  right : ℤ
  bottom : ℤ
deriving DecidableEq

/-- Scoring/copy regions of one grid cell (`GridCellRegion`). -/
structure GridCellRegion where
  copyRect : Rect
  evalRect : Rect
  evalPixelCount : ℤ
deriving DecidableEq

/-- A ranked per-cell candidate (`CardCandidate`). -/
structure CardCandidate where
  frameIndex : ℤ
  score : ℚ
deriving DecidableEq

/-- Percentage-based card layout (`CardLayoutPercent`). -/
structure CardLayoutPercent where
  left : ℚ
  top : ℚ
  cardWidth : ℚ
  cardHeight : ℚ
  gapX : ℚ
  gapY : ℚ
deriving DecidableEq

/-- Per-edge copy padding fractions (`CARD_COPY_BUFFER_RATIO`'s shape). -/
structure CardCopyBuffer where
  left : ℚ
  right : ℚ
  top : ℚ
  bottom : ℚ
deriving DecidableEq

/-- `PROCESSING_CONFIG.threshold`: pixel-delta threshold (0-255). -/
def pixelThreshold : ℚ := 30

/-- `PROCESSING_CONFIG.progressUpdateInterval`. -/
def progressUpdateInterval : ℕ := 5

/-- `PROCESSING_CONFIG.cardLayoutPercent`. -/
def cardLayoutPercent : CardLayoutPercent :=
  { left := 0.07525, top := 0.2295, cardWidth := 0.092, cardHeight := 0.22425
    gapX := 0.01625, gapY := 0.02775 }

/-- `MOTION_THRESHOLD`. -/
def MOTION_THRESHOLD : ℚ := 14

/-- `ACTIVE_RANGE_RULES`. -/
structure ActiveRangeRules where
  minBaselineRatio : ℚ
  maxBaselineRatio : ℚ
  minMotionRatio : ℚ
  minActiveStreak : ℕ
  marginFrames : ℤ

def ACTIVE_RANGE_RULES : ActiveRangeRules :=
  { minBaselineRatio := 0.015, maxBaselineRatio := 0.35, minMotionRatio := 0.005
    minActiveStreak := 2, marginFrames := 2 }

/-- `GRID_COLS`. -/
def GRID_COLS : ℕ := 8

/-- `GRID_ROWS`. -/
def GRID_ROWS : ℕ := 3

/-- `CARD_EVAL_INSET_RATIO` (renamed to satisfy Lean naming constraints). -/
def CARD_EVAL_INSET : ℚ := 0.12

/-- `CARD_COPY_BUFFER_RATIO`. -/
def CARD_COPY_BUFFER : CardCopyBuffer := { left := 0.015, right := 0.015, top := 0.04, bottom := 0.02 }

/-- `CARD_MIN_DIFF_RATIO`. -/
def CARD_MIN_DIFF : ℚ := 0.08

/-- `CARD_MAX_LOCAL_MOTION_RATIO`. -/
def CARD_MAX_LOCAL_MOTION : ℚ := 0.25

/-- `CARD_CANDIDATE_LIMIT`. -/
def CARD_CANDIDATE_LIMIT : ℕ := 3

/-- `clamp(value, min, max) = Math.max(min, Math.min(value, max))` on integers. -/
def clampInt (value lo hi : ℤ) : ℤ := max lo (min value hi)

/-- JS `Math.round` on an exact rational: round half up. -/
def jsRound (q : ℚ) : ℤ := ⌊q + 1 / 2⌋

/-- JS `Math.floor` on an exact rational. -/
def jsFloor (q : ℚ) : ℤ := ⌊q⌋

/-- `isValidCardLayoutPercent`. -/
def isValidCardLayoutPercent (layout : CardLayoutPercent) : Bool :=
  if layout.cardWidth ≤ 0 ∨ layout.cardHeight ≤ 0 ∨ layout.gapX < 0 ∨ layout.gapY < 0 then
    false
  else
    let totalWidth := layout.left + (GRID_COLS : ℚ) * layout.cardWidth + ((GRID_COLS : ℚ) - 1) * layout.gapX
    let totalHeight := layout.top + (GRID_ROWS : ℚ) * layout.cardHeight + ((GRID_ROWS : ℚ) - 1) * layout.gapY
    decide (0 ≤ layout.left ∧ 0 ≤ layout.top ∧ totalWidth ≤ 1 ∧ totalHeight ≤ 1)

/-- `toGridCellRegion(baseRect, frameWidth, frameHeight, copyBufferRatio?)`. -/
def toGridCellRegion (baseRect : Rect) (frameWidth frameHeight : ℤ)
    (copyBuffer : Option CardCopyBuffer) : GridCellRegion :=
  let cellWidth : ℤ := max 1 (baseRect.right - baseRect.left)
  let cellHeight : ℤ := max 1 (baseRect.bottom - baseRect.top)
  let insetX : ℤ := jsFloor ((cellWidth : ℚ) * CARD_EVAL_INSET)
  let insetY : ℤ := jsFloor ((cellHeight : ℚ) * CARD_EVAL_INSET)
  let evalLeft := clampInt (baseRect.left + insetX) baseRect.left (baseRect.right - 1)
  let evalRight := clampInt (baseRect.right - insetX) (evalLeft + 1) baseRect.right
  let evalTop := clampInt (baseRect.top + insetY) baseRect.top (baseRect.bottom - 1)
  let evalBottom := clampInt (baseRect.bottom - insetY) (evalTop + 1) baseRect.bottom
  match copyBuffer with
  | none =>
    { copyRect := baseRect
      evalRect := { left := evalLeft, top := evalTop, right := evalRight, bottom := evalBottom }
      evalPixelCount := max 1 ((evalRight - evalLeft) * (evalBottom - evalTop)) }
  | some buffer =>
    let copyLeft := clampInt (baseRect.left - jsRound ((cellWidth : ℚ) * buffer.left)) 0 (max 0 (frameWidth - 2))
    let copyRight := clampInt (baseRect.right + jsRound ((cellWidth : ℚ) * buffer.right)) (copyLeft + 1) frameWidth
    let copyTop := clampInt (baseRect.top - jsRound ((cellHeight : ℚ) * buffer.top)) 0 (max 0 (frameHeight - 2))
    let copyBottom := clampInt (baseRect.bottom + jsRound ((cellHeight : ℚ) * buffer.bottom)) (copyTop + 1) frameHeight
    { copyRect := { left := copyLeft, top := copyTop, right := copyRight, bottom := copyBottom }
      evalRect := { left := evalLeft, top := evalTop, right := evalRight, bottom := evalBottom }
      evalPixelCount := max 1 ((evalRight - evalLeft) * (evalBottom - evalTop)) }

/-- The `baseRect` of cell `(row, col)` in `buildUniformGridRegions`:
`xEdges[col] = Math.round((col / GRID_COLS) * width)`, similarly for rows. -/
def uniformCellRect (width height : ℤ) (row col : ℕ) : Rect :=
  { left := jsRound (((col : ℚ) / (GRID_COLS : ℚ)) * (width : ℚ))
    top := jsRound (((row : ℚ) / (GRID_ROWS : ℚ)) * (height : ℚ))
    right := jsRound ((((col : ℚ) + 1) / (GRID_COLS : ℚ)) * (width : ℚ))
    bottom := jsRound ((((row : ℚ) + 1) / (GRID_ROWS : ℚ)) * (height : ℚ)) }

/-- `buildUniformGridRegions(width, height)`. -/
def buildUniformGridRegions (width height : ℤ) : List GridCellRegion :=
  (List.range GRID_ROWS).flatMap fun row =>
    (List.range GRID_COLS).map fun col =>
      toGridCellRegion (uniformCellRect width height row col) width height none

/-- The clamped `baseRect` of cell `(row, col)` in `buildGridRegions`'
percentage-layout loop. -/
def percentCellRect (layout : CardLayoutPercent) (width height : ℤ) (row col : ℕ) : Rect :=
  let leftPercent := layout.left + (col : ℚ) * (layout.cardWidth + layout.gapX)
  let topPercent := layout.top + (row : ℚ) * (layout.cardHeight + layout.gapY)
  let left := clampInt (jsRound (leftPercent * (width : ℚ))) 0 (max 0 (width - 2))
  let right := clampInt (jsRound ((leftPercent + layout.cardWidth) * (width : ℚ))) (left + 1) width
  let top := clampInt (jsRound (topPercent * (height : ℚ))) 0 (max 0 (height - 2))
  let bottom := clampInt (jsRound ((topPercent + layout.cardHeight) * (height : ℚ))) (top + 1) height
  { left := left, top := top, right := right, bottom := bottom }

/-- `buildGridRegions`' body with the ambient `PROCESSING_CONFIG.cardLayoutPercent`
made an explicit parameter. -/
def buildGridRegionsWithLayout (layout : CardLayoutPercent) (width height : ℤ) : List GridCellRegion :=
  if isValidCardLayoutPercent layout then
    (List.range GRID_ROWS).flatMap fun row =>
      (List.range GRID_COLS).map fun col =>
        toGridCellRegion (percentCellRect layout width height row col) width height (some CARD_COPY_BUFFER)
  else
    buildUniformGridRegions width height

/-- `buildGridRegions(width, height)`. -/
def buildGridRegions (width height : ℤ) : List GridCellRegion :=
  buildGridRegionsWithLayout cardLayoutPercent width height

/-- A pixel buffer (`Uint8ClampedArray`): channel value at each byte offset. -/
abbrev PixelBuf := ℤ → ℚ

/-- `getBrightnessDiff(first, second, offset)`: mean absolute RGB delta. -/
def getBrightnessDiff (first second : PixelBuf) (offset : ℤ) : ℚ :=
  (|first offset - second offset| + |first (offset + 1) - second (offset + 1)| +
    |first (offset + 2) - second (offset + 2)|) / 3

/-- Byte offset of pixel `(x, y)` in a buffer of row width `imageWidth`. -/
def pixelOffset (imageWidth y x : ℤ) : ℤ := (y * imageWidth + x) * 4

/-- `copyRectPixels(sourcePixels, targetPixels, imageWidth, rect)`: the buffer
obtained by copying, for every row of `rect`, the byte span
`[(y*imageWidth+rect.left)*4, (y*imageWidth+rect.right)*4)` from source over
target. -/
def copyRectPixels (sourcePixels targetPixels : PixelBuf) (imageWidth : ℤ) (rect : Rect) : PixelBuf :=
  fun offset =>
    if (List.range (rect.bottom - rect.top).toNat).any (fun (dy : ℕ) =>
        let y := rect.top + (dy : ℤ)
        decide ((y * imageWidth + rect.left) * 4 ≤ offset ∧ offset < (y * imageWidth + rect.right) * 4))
    then sourcePixels offset
    else targetPixels offset

/-- `insertCandidate`: first half of `pushCardCandidate` — update the first
entry with the same `frameIndex` (keeping the larger score), else append. -/
def insertCandidate : List CardCandidate → CardCandidate → List CardCandidate
  | [], next => [next]
  | candidate :: rest, next =>
    if candidate.frameIndex = next.frameIndex then
      (if next.score > candidate.score then { candidate with score := next.score } else candidate) :: rest
    else
      candidate :: insertCandidate rest next

/-- The comparator of `candidates.sort((a, b) => b.score - a.score)`:
`first` may stay before `second` iff `second.score ≤ first.score`. -/
def candidateLE (first second : CardCandidate) : Bool := decide (second.score ≤ first.score)

/-- Stable insertion into a descending-sorted candidate list. -/
def insertSorted (next : CardCandidate) : List CardCandidate → List CardCandidate
  | [] => [next]
  | candidate :: rest =>
    if candidateLE next candidate then next :: candidate :: rest
    else candidate :: insertSorted next rest

/-- Stable sort by descending score (the JS stable `Array.prototype.sort`
with comparator `(a, b) => b.score - a.score`). -/
def sortCandidates (candidates : List CardCandidate) : List CardCandidate :=
  candidates.foldr insertSorted []

/-- `pushCardCandidate(candidates, next)` as a function: merge the new
candidate, re-sort descending by score, truncate to `CARD_CANDIDATE_LIMIT`. -/
def pushCardCandidate (candidates : List CardCandidate) (next : CardCandidate) : List CardCandidate :=
  (sortCandidates (insertCandidate candidates next)).take CARD_CANDIDATE_LIMIT

/-- Byte offsets of the pixels of `rect`, row-major, in a buffer of width
`width` (the iteration order of the per-cell scan loops). -/
def rectOffsets (width : ℤ) (rect : Rect) : List ℤ :=
  (List.range (rect.bottom - rect.top).toNat).flatMap fun (dy : ℕ) =>
    (List.range (rect.right - rect.left).toNat).map fun (dx : ℕ) =>
      pixelOffset width (rect.top + (dy : ℤ)) (rect.left + (dx : ℤ))

/-- Accumulators of the per-cell eval-region scan in the merge loop. -/
structure CellScan where
  changedPixels : ℕ
  localMotionPixels : ℕ
  brightnessSum : ℚ
  brightnessSqSum : ℚ
deriving DecidableEq

/-- The per-cell eval-region scan of the merge loop: counts pixels changed
from baseline, pixels in motion versus the previous merge frame, and
accumulates brightness moments. -/
def scanCell (currentPixels baselinePixels : PixelBuf) (previousMergePixels : Option PixelBuf)
    (width : ℤ) (evalRect : Rect) : CellScan :=
  (rectOffsets width evalRect).foldl
    (fun scan offset =>
      let currentBrightness := (currentPixels offset + currentPixels (offset + 1) + currentPixels (offset + 2)) / 3
      { changedPixels := scan.changedPixels +
          (if getBrightnessDiff currentPixels baselinePixels offset > pixelThreshold then 1 else 0)
        localMotionPixels := scan.localMotionPixels +
          (match previousMergePixels with
           | some prevPixels => if getBrightnessDiff currentPixels prevPixels offset > MOTION_THRESHOLD then 1 else 0
           | none => 0)
        brightnessSum := scan.brightnessSum + currentBrightness
        brightnessSqSum := scan.brightnessSqSum + currentBrightness * currentBrightness })
    { changedPixels := 0, localMotionPixels := 0, brightnessSum := 0, brightnessSqSum := 0 }

/-- `changedRatio` of a cell for one merge frame. -/
def cellChangedRatio (currentPixels baselinePixels : PixelBuf) (previousMergePixels : Option PixelBuf)
    (width : ℤ) (region : GridCellRegion) : ℚ :=
  ((scanCell currentPixels baselinePixels previousMergePixels width region.evalRect).changedPixels : ℚ) /
    (region.evalPixelCount : ℚ)

/-- `localMotionRatio` of a cell for one merge frame: the eval-region motion
pixel ratio against the previous merge frame, or the frame's global
`motionRatio` for the very first merge frame. -/
def cellLocalMotionRatio (currentPixels baselinePixels : PixelBuf) (previousMergePixels : Option PixelBuf)
    (frameMotionRatio : ℚ) (width : ℤ) (region : GridCellRegion) : ℚ :=
  match previousMergePixels with
  | some _ =>
    ((scanCell currentPixels baselinePixels previousMergePixels width region.evalRect).localMotionPixels : ℚ) /
      (region.evalPixelCount : ℚ)
  | none => frameMotionRatio

/-- `brightnessVariance` of a cell for one merge frame. -/
def cellBrightnessVariance (currentPixels baselinePixels : PixelBuf) (previousMergePixels : Option PixelBuf)
    (width : ℤ) (region : GridCellRegion) : ℚ :=
  let scan := scanCell currentPixels baselinePixels previousMergePixels width region.evalRect
  let meanBrightness := scan.brightnessSum / (region.evalPixelCount : ℚ)
  max 0 (scan.brightnessSqSum / (region.evalPixelCount : ℚ) - meanBrightness * meanBrightness)

/-- The per-cell scoring step of the merge loop (lines 514-561): `none` when
the cell rejects the frame, otherwise the reveal-confidence score. -/
def scoreCell (currentPixels baselinePixels : PixelBuf) (previousMergePixels : Option PixelBuf)
    (frameMotionRatio : ℚ) (width : ℤ) (region : GridCellRegion) : Option ℚ :=
  let scan := scanCell currentPixels baselinePixels previousMergePixels width region.evalRect
  let changedRatio := (scan.changedPixels : ℚ) / (region.evalPixelCount : ℚ)
  if changedRatio < CARD_MIN_DIFF then none
  else
    let localMotionRatio :=
      match previousMergePixels with
      | some _ => (scan.localMotionPixels : ℚ) / (region.evalPixelCount : ℚ)
      | none => frameMotionRatio
    if localMotionRatio > CARD_MAX_LOCAL_MOTION then none
    else
      let meanBrightness := scan.brightnessSum / (region.evalPixelCount : ℚ)
      let brightnessVariance := max 0 (scan.brightnessSqSum / (region.evalPixelCount : ℚ) - meanBrightness * meanBrightness)
      let motionPenalty := 1 / (1 + localMotionRatio * 25)
      some (changedRatio * brightnessVariance * motionPenalty)

/-- `frameMetrics[frameIndex]` (in-bounds in every actual use site). -/
def metricAt (metrics : List FrameMetrics) (frameIndex : ℤ) : FrameMetrics :=
  metrics.getD frameIndex.toNat { baselineRatio := 0, motionRatio := 0 }

/-- The inner cell loop of the merge phase for one decoded frame: walks the
regions together with the per-cell running best scores and candidate lists,
copying the frame's `copyRect` pixels whenever its score beats the running
best (lines 514-569). -/
def mergeCellsLoop (currentPixels baselinePixels : PixelBuf) (previousMergePixels : Option PixelBuf)
    (frameMotionRatio : ℚ) (frameIndex width : ℤ) :
    List GridCellRegion → List ℚ → List (List CardCandidate) → PixelBuf →
      List ℚ × List (List CardCandidate) × PixelBuf
  | [], bestScores, cellCandidates, resultPixels => (bestScores, cellCandidates, resultPixels)
  | region :: restRegions, best :: restBest, candidates :: restCandidates, resultPixels =>
    match scoreCell currentPixels baselinePixels previousMergePixels frameMotionRatio width region with
    | none =>
      let (restBest', restCandidates', resultPixels') :=
        mergeCellsLoop currentPixels baselinePixels previousMergePixels frameMotionRatio frameIndex width
          restRegions restBest restCandidates resultPixels
      (best :: restBest', candidates :: restCandidates', resultPixels')
    | some score =>
      let candidates' := pushCardCandidate candidates { frameIndex := frameIndex, score := score }
      if best < score then
        let copied := copyRectPixels currentPixels resultPixels width region.copyRect
        let (restBest', restCandidates', resultPixels') :=
          mergeCellsLoop currentPixels baselinePixels previousMergePixels frameMotionRatio frameIndex width
            restRegions restBest restCandidates copied
        (score :: restBest', candidates' :: restCandidates', resultPixels')
      else
        let (restBest', restCandidates', resultPixels') :=
          mergeCellsLoop currentPixels baselinePixels previousMergePixels frameMotionRatio frameIndex width
            restRegions restBest restCandidates resultPixels
        (best :: restBest', candidates' :: restCandidates', resultPixels')
  | _ :: _, bestScores, cellCandidates, resultPixels => (bestScores, cellCandidates, resultPixels)

/-- State threaded through the merge phase. -/
structure MergeState where
  resultPixels : PixelBuf
  bestScores : List ℚ
  cellCandidates : List (List CardCandidate)
  previousMergePixels : Option PixelBuf

/-- One iteration of the merge-frame loop: decode the frame, run the cell
loop, remember the frame as the previous merge frame. -/
def mergeStep (baselinePixels : PixelBuf) (decode : ℤ → PixelBuf) (metrics : List FrameMetrics)
    (width : ℤ) (gridRegions : List GridCellRegion) (state : MergeState) (frameIndex : ℤ) :
    MergeState :=
  let currentPixels := decode frameIndex
  let (bestScores', cellCandidates', resultPixels') :=
    mergeCellsLoop currentPixels baselinePixels state.previousMergePixels
      (metricAt metrics frameIndex).motionRatio frameIndex width
      gridRegions state.bestScores state.cellCandidates state.resultPixels
  { resultPixels := resultPixels', bestScores := bestScores'
    cellCandidates := cellCandidates', previousMergePixels := some currentPixels }

/-- Phase 2 of `processVideoToImage`: fold the merge frames, in order,
through the per-cell scoring/copy loop. `decode frameIndex` stands for the
output-resolution pixels obtained by seeking to `frameIndex / fps`. -/
def mergePhase (baselinePixels : PixelBuf) (decode : ℤ → PixelBuf) (metrics : List FrameMetrics)
    (width : ℤ) (gridRegions : List GridCellRegion) (mergeFrameIndices : List ℤ) : MergeState :=
  mergeFrameIndices.foldl (mergeStep baselinePixels decode metrics width gridRegions)
    { resultPixels := baselinePixels
      bestScores := gridRegions.map fun _ => -1
      cellCandidates := gridRegions.map fun _ => []
      previousMergePixels := none }

/-- One fallback-filling pass (lines 604-620) for one cell and one runner-up
candidate frame: every `copyRect` pixel still matching the baseline
(delta ≤ threshold) whose candidate pixel differs from the baseline beyond
the threshold receives the candidate's RGB and an alpha of 255. -/
def fillUnresolved (resultPixels baselinePixels fallbackPixels : PixelBuf) (width : ℤ) (rect : Rect) : PixelBuf :=
  fun offset =>
    let pixel := offset / 4
    let channel := offset % 4
    let base := pixel * 4
    let y := pixel / width
    let x := pixel % width
    if rect.top ≤ y ∧ y < rect.bottom ∧ rect.left ≤ x ∧ x < rect.right ∧
        ¬ getBrightnessDiff resultPixels baselinePixels base > pixelThreshold ∧
        getBrightnessDiff fallbackPixels baselinePixels base > pixelThreshold then
      if channel = 3 then 255 else fallbackPixels offset
    else
      resultPixels offset

/-- The full fallback-filling pass (lines 595-622): for every cell with at
least two candidates, apply `fillUnresolved` for each runner-up candidate in
list order. -/
def runFallbackFiller (baselinePixels : PixelBuf) (decode : ℤ → PixelBuf) (width : ℤ)
    (gridRegions : List GridCellRegion) (cellCandidates : List (List CardCandidate))
    (resultPixels : PixelBuf) : PixelBuf :=
  (gridRegions.zip cellCandidates).foldl
    (fun result cell =>
      if cell.2.length < 2 then result
      else
        (cell.2.drop 1).foldl
          (fun res candidate => fillUnresolved res baselinePixels (decode candidate.frameIndex) width cell.1.copyRect)
          result)
    resultPixels

/-- The composite pixel buffer at the end of the merge and fallback-filling
phases (before sharpening). -/
def runComposite (baselinePixels : PixelBuf) (decode : ℤ → PixelBuf) (metrics : List FrameMetrics)
    (width : ℤ) (gridRegions : List GridCellRegion) (mergeFrameIndices : List ℤ) : PixelBuf :=
  let state := mergePhase baselinePixels decode metrics width gridRegions mergeFrameIndices
  runFallbackFiller baselinePixels decode width gridRegions state.cellCandidates state.resultPixels

/-- `isBaselineWithinActiveRange(baselineRatio)`. -/
def isBaselineWithinActiveRange (baselineRatio : ℚ) : Bool :=
  decide (ACTIVE_RANGE_RULES.minBaselineRatio ≤ baselineRatio ∧
    baselineRatio ≤ ACTIVE_RANGE_RULES.maxBaselineRatio)

/-- The streak-scan loop of `findActiveStreakRange`, with the `-1` sentinels
of the source: returns the final `(firstActive, lastActive)`. -/
def streakLoop : List Bool → ℕ → ℕ → ℤ → ℤ → ℤ × ℤ
  | [], _, _, firstActive, lastActive => (firstActive, lastActive)
  | c :: rest, index, streak, firstActive, lastActive =>
    if c then
      let streak' := streak + 1
      if ACTIVE_RANGE_RULES.minActiveStreak ≤ streak' then
        let streakStart : ℤ := (index : ℤ) - (streak' : ℤ) + 1
        streakLoop rest (index + 1) streak' (if firstActive = -1 then streakStart else firstActive) (index : ℤ)
      else
        streakLoop rest (index + 1) streak' firstActive lastActive
    else
      streakLoop rest (index + 1) 0 firstActive lastActive

/-- `findActiveStreakRange(candidate)`. -/
def findActiveStreakRange (candidate : List Bool) : Option (ℤ × ℤ) :=
  let scan := streakLoop candidate 0 0 (-1) (-1)
  if scan.1 = -1 ∨ scan.2 = -1 then none
  else
    some (max 0 (scan.1 - ACTIVE_RANGE_RULES.marginFrames),
      min ((candidate.length : ℤ) - 1) (scan.2 + ACTIVE_RANGE_RULES.marginFrames))

/-- `detectActiveFrameRange(metrics)`: strict candidate rule, then the
motion-based fallback rule, then the whole sequence. -/
def detectActiveFrameRange (metrics : List FrameMetrics) : ℤ × ℤ :=
  if metrics.length = 0 then (0, 0)
  else
    let strictCandidate := metrics.map fun m =>
      isBaselineWithinActiveRange m.baselineRatio && decide (ACTIVE_RANGE_RULES.minMotionRatio ≤ m.motionRatio)
    match findActiveStreakRange strictCandidate with
    | some strictRange => strictRange
    | none =>
      let maxMotionRatio := metrics.foldl (fun acc m => max acc m.motionRatio) 0
      let fallbackMotionThreshold := max ACTIVE_RANGE_RULES.minMotionRatio (maxMotionRatio * 0.35)
      let fallbackBaselineThreshold := ACTIVE_RANGE_RULES.minBaselineRatio * 0.5
      let motionCandidate := metrics.map fun m =>
        decide (fallbackMotionThreshold ≤ m.motionRatio ∧ fallbackBaselineThreshold ≤ m.baselineRatio)
      match findActiveStreakRange motionCandidate with
      | some motionRange => motionRange
      | none => (0, (metrics.length : ℤ) - 1)

/-- The inclusive index range `[start, stop]` walked by the
`for (let frameIndex = range.start; frameIndex <= range.end; ...)` loops. -/
def intRange (start stop : ℤ) : List ℤ :=
  (List.range (stop + 1 - start).toNat).map fun (i : ℕ) => start + (i : ℤ)

/-- The first tier of `buildMergeFrameIndices`: indices of the active range
whose `baselineRatio` lies in the accepted band. -/
def baselineBandIndices (metrics : List FrameMetrics) (range : ℤ × ℤ) : List ℤ :=
  (intRange range.1 range.2).filter fun frameIndex =>
    isBaselineWithinActiveRange (metricAt metrics frameIndex).baselineRatio

/-- The second tier of `buildMergeFrameIndices`: the motion-based fallback
predicate over the active range. -/
def motionFallbackIndices (metrics : List FrameMetrics) (range : ℤ × ℤ) : List ℤ :=
  let maxMotionRatio :=
    ((intRange range.1 range.2).map fun frameIndex => (metricAt metrics frameIndex).motionRatio).foldl max 0
  let motionThreshold := max ACTIVE_RANGE_RULES.minMotionRatio (maxMotionRatio * 0.35)
  let baselineThreshold := ACTIVE_RANGE_RULES.minBaselineRatio * 0.5
  (intRange range.1 range.2).filter fun frameIndex =>
    decide (motionThreshold ≤ (metricAt metrics frameIndex).motionRatio ∧
      baselineThreshold ≤ (metricAt metrics frameIndex).baselineRatio)

/-- `buildMergeFrameIndices(metrics, range)`. -/
def buildMergeFrameIndices (metrics : List FrameMetrics) (range : ℤ × ℤ) : List ℤ :=
  let filtered := baselineBandIndices metrics range
  if filtered.length > 0 then filtered
  else
    let motionFallback := motionFallbackIndices metrics range
    if motionFallback.length > 0 then motionFallback
    else intRange range.1 range.2

/-- `shouldEmitProgress(completed, total)`. -/
def shouldEmitProgress (completed total : ℕ) : Bool :=
  completed % progressUpdateInterval = 0 || completed = total

/-- The `current` values reported by the analysis loop, in order. -/
def analysisProgressValues (frameCount : ℕ) : List ℕ :=
  (((List.range frameCount).map fun frameIndex => frameIndex + 1).filter
    fun analyzedFrames => shouldEmitProgress analyzedFrames frameCount)

/-- The `current` value reported by the merge loop after `activeProgress`
merge frames: `frameCount + Math.max(1, Math.round((activeProgress / mergeFrameCount) * frameCount))`. -/
def mergeProgressValue (frameCount mergeFrameCount activeProgress : ℕ) : ℕ :=
  frameCount + (max 1 (jsRound (((activeProgress : ℚ) / (mergeFrameCount : ℚ)) * (frameCount : ℚ)))).toNat

/-- The `current` values reported by the merge loop, in order. -/
def mergeProgressValues (frameCount mergeFrameCount : ℕ) : List ℕ :=
  ((((List.range mergeFrameCount).map fun mergeIndex => mergeIndex + 1).filter
    fun activeProgress => shouldEmitProgress activeProgress mergeFrameCount).map
    fun activeProgress => mergeProgressValue frameCount mergeFrameCount activeProgress)

/-- The full ordered sequence of `onProgress(current, total)` invocations of
one `processVideoToImage` run: the two initial calls, the throttled analysis
loop calls, the throttled merge loop calls, and the final call. -/
def progressEvents (frameCount mergeFrameCount : ℕ) : List (ℕ × ℕ) :=
  (([0, 1] ++ analysisProgressValues frameCount ++ mergeProgressValues frameCount mergeFrameCount ++
      [2 * frameCount]).map
    fun current => (current, 2 * frameCount))

/-- A rectangle lies inside the `[0,width] × [0,height]` frame and is
non-degenerate. -/
def rectWithinFrame (r : Rect) (width height : ℤ) : Prop :=
  0 ≤ r.left ∧ r.left < r.right ∧ r.right ≤ width ∧
  0 ≤ r.top ∧ r.top < r.bottom ∧ r.bottom ≤ height

/-- `inner` lies inside `outer`. -/
def rectWithin (inner outer : Rect) : Prop :=
  outer.left ≤ inner.left ∧ inner.right ≤ outer.right ∧
  outer.top ≤ inner.top ∧ inner.bottom ≤ outer.bottom

/-- The invariant of a per-cell candidate list: bounded by
`CARD_CANDIDATE_LIMIT`, sorted descending by score, and with pairwise
distinct frame indices. -/
def candidateInvariant (l : List CardCandidate) : Prop :=
  l.length ≤ CARD_CANDIDATE_LIMIT ∧
  (l.Pairwise fun a b => b.score ≤ a.score) ∧
  (l.Pairwise fun a b => a.frameIndex ≠ b.frameIndex)

/-- Concrete single-cell region for the merge scenario: one 10 × 1 cell whose
eval and copy regions are the whole first row of a width-10 frame. -/
def scenRegion : GridCellRegion :=
  { copyRect := { left := 0, top := 0, right := 10, bottom := 1 }
    evalRect := { left := 0, top := 0, right := 10, bottom := 1 }
    evalPixelCount := 10 }

/-- Concrete baseline buffer for the merge scenario. -/
def scenBase : PixelBuf := fun offset =>
  let pixel := offset / 4
  if pixel ≤ 5 then 0 else if pixel ≤ 8 then 70 else 12

/-- Concrete pixels of merge frame 5 for the merge scenario. -/
def scenFrame5 : PixelBuf := fun offset =>
  if offset / 4 ≤ 4 then 45 else 49

/-- Concrete pixels of merge frame 12 for the merge scenario. -/
def scenFrame12 : PixelBuf := fun offset =>
  let pixel := offset / 4
  if pixel = 0 then 52
  else if pixel = 1 ∨ pixel = 2 then
    (if offset % 4 = 0 then 22 else if offset % 4 = 1 then 42 else 62)
  else 42

/-- Concrete frame decoder for the merge scenario. -/
def scenDecode : ℤ → PixelBuf := fun frameIndex =>
  if frameIndex = 5 then scenFrame5 else if frameIndex = 12 then scenFrame12 else fun _ => 0

/-- Concrete analysis metrics for the merge scenario (frame 5's global
motion ratio is 6/25). -/
def scenMetrics : List FrameMetrics :=
  [{ baselineRatio := 0, motionRatio := 0 }, { baselineRatio := 0, motionRatio := 0 },
   { baselineRatio := 0, motionRatio := 0 }, { baselineRatio := 0, motionRatio := 0 },
   { baselineRatio := 0, motionRatio := 0 }, { baselineRatio := 0, motionRatio := 6/25 }]

/-! ### Helper lemmas -/

lemma clampInt_lower (value lo hi : ℤ) : lo ≤ clampInt value lo hi := le_max_left _ _

lemma clampInt_upper (value lo hi : ℤ) (h : lo ≤ hi) : clampInt value lo hi ≤ hi :=
  max_le h (min_le_right _ _)

lemma clampInt_le_max (value lo hi : ℤ) : clampInt value lo hi ≤ max lo hi :=
  max_le (le_max_left _ _) (le_trans (min_le_right _ _) (le_max_right _ _))

lemma jsRound_nonneg (q : ℚ) (h : 0 ≤ q) : 0 ≤ jsRound q := by
  have : ((0 : ℤ) : ℚ) ≤ q + 1 / 2 := by push_cast; linarith
  exact Int.le_floor.mpr this

lemma jsRound_mono {q r : ℚ} (h : q ≤ r) : jsRound q ≤ jsRound r :=
  Int.floor_le_floor (by linarith)

lemma jsRound_intCast (n : ℤ) : jsRound ((n : ℚ)) = n := by
  unfold jsRound
  rw [Int.floor_eq_iff]
  refine ⟨by linarith, ?_⟩
  linarith

lemma jsRound_le_of_le_intCast {q : ℚ} {n : ℤ} (h : q ≤ (n : ℚ)) : jsRound q ≤ n := by
  calc jsRound q ≤ jsRound ((n : ℚ)) := jsRound_mono h
    _ = n := jsRound_intCast n

/-! ### C2: per-cell accept/reject rule and score formula -/

/-- C2: in the merge phase a frame is rejected for a cell (`scoreCell` is
`none`) iff `changedRatio < CARD_MIN_DIFF_RATIO (= 0.08)` or
`localMotionRatio > CARD_MAX_LOCAL_MOTION_RATIO (= 0.25)`; otherwise the score
is `changedRatio * brightnessVariance * (1 / (1 + localMotionRatio * 25))`,
with `localMotionRatio` equal to the frame's global `motionRatio` when no
previous merge frame exists, and to the eval-region motion pixel ratio
against the previous merge frame otherwise. -/
theorem scoreCell_accept_reject (currentPixels baselinePixels : PixelBuf)
    (previousMergePixels : Option PixelBuf) (frameMotionRatio : ℚ) (width : ℤ)
    (region : GridCellRegion) :
    scoreCell currentPixels baselinePixels previousMergePixels frameMotionRatio width region =
      if cellChangedRatio currentPixels baselinePixels previousMergePixels width region < CARD_MIN_DIFF ∨
          CARD_MAX_LOCAL_MOTION <
            cellLocalMotionRatio currentPixels baselinePixels previousMergePixels frameMotionRatio width region then
        none
      else
        some (cellChangedRatio currentPixels baselinePixels previousMergePixels width region *
          cellBrightnessVariance currentPixels baselinePixels previousMergePixels width region *
          (1 / (1 + cellLocalMotionRatio currentPixels baselinePixels previousMergePixels frameMotionRatio width
            region * 25))) := by
  unfold scoreCell cellChangedRatio cellLocalMotionRatio cellBrightnessVariance
  cases previousMergePixels <;> · simp only
                                  split_ifs <;> first | rfl | tauto

/-! ### C1: the active range is always well-formed -/

lemma streakLoop_invariant (l : List Bool) :
    ∀ (index streak : ℕ) (firstActive lastActive : ℤ),
      streak ≤ index →
      (firstActive = -1 ↔ lastActive = -1) →
      (firstActive ≠ -1 → 0 ≤ firstActive ∧ firstActive ≤ lastActive ∧ lastActive < (index : ℤ)) →
      ((streakLoop l index streak firstActive lastActive).1 = -1 ↔
        (streakLoop l index streak firstActive lastActive).2 = -1) ∧
      ((streakLoop l index streak firstActive lastActive).1 ≠ -1 →
        0 ≤ (streakLoop l index streak firstActive lastActive).1 ∧
        (streakLoop l index streak firstActive lastActive).1 ≤
          (streakLoop l index streak firstActive lastActive).2 ∧
        (streakLoop l index streak firstActive lastActive).2 < (index : ℤ) + l.length) := by
  induction l with
  | nil =>
    intro index streak firstActive lastActive _ hiff hbound
    simp only [streakLoop, List.length_nil]
    refine ⟨hiff, fun hne => ?_⟩
    obtain ⟨h0, h1, h2⟩ := hbound hne
    exact ⟨h0, h1, by push_cast; linarith⟩
  | cons c rest ih =>
    intro index streak firstActive lastActive hs hiff hbound
    simp only [streakLoop]
    by_cases hc : c = true
    · rw [if_pos hc]
      by_cases hstreak : ACTIVE_RANGE_RULES.minActiveStreak ≤ streak + 1
      · rw [if_pos hstreak]
        have hfix := ih (index + 1) (streak + 1)
          (if firstActive = -1 then (index : ℤ) - ((streak + 1 : ℕ) : ℤ) + 1 else firstActive)
          ((index : ℤ))
          (by omega)
          (by constructor <;> intro habs
              · exfalso
                split at habs
                · omega
                · exact (by assumption : firstActive ≠ -1) habs
              · omega)
          (by intro _
              split
              · refine ⟨by push_cast; omega, by push_cast; omega, by push_cast; omega⟩
              · have hne : firstActive ≠ -1 := by assumption
                obtain ⟨h0, h1, h2⟩ := hbound hne
                refine ⟨h0, by omega, by push_cast; omega⟩)
        refine ⟨hfix.1, fun hne => ?_⟩
        obtain ⟨h0, h1, h2⟩ := hfix.2 hne
        refine ⟨h0, h1, ?_⟩
        simp only [List.length_cons]
        omega
      · rw [if_neg hstreak]
        have hfix := ih (index + 1) (streak + 1) firstActive lastActive (by omega) hiff
          (by intro hne
              obtain ⟨h0, h1, h2⟩ := hbound hne
              exact ⟨h0, h1, by push_cast; omega⟩)
        refine ⟨hfix.1, fun hne => ?_⟩
        obtain ⟨h0, h1, h2⟩ := hfix.2 hne
        refine ⟨h0, h1, ?_⟩
        simp only [List.length_cons]
        omega
    · rw [if_neg hc]
      have hfix := ih (index + 1) 0 firstActive lastActive (by omega) hiff
        (by intro hne
            obtain ⟨h0, h1, h2⟩ := hbound hne
            exact ⟨h0, h1, by push_cast; omega⟩)
      refine ⟨hfix.1, fun hne => ?_⟩
      obtain ⟨h0, h1, h2⟩ := hfix.2 hne
      refine ⟨h0, h1, ?_⟩
      simp only [List.length_cons]
      omega

lemma findActiveStreakRange_some_bounds {candidate : List Bool} {start stop : ℤ}
    (h : findActiveStreakRange candidate = some (start, stop)) :
    0 ≤ start ∧ start ≤ stop ∧ stop ≤ (candidate.length : ℤ) - 1 := by
  simp only [findActiveStreakRange] at h
  split at h
  · exact absurd h (by simp)
  · rename_i hne
    rw [not_or] at hne
    have hinv := streakLoop_invariant candidate 0 0 (-1) (-1) (le_refl 0) (by simp)
      (by intro habs; exact absurd rfl habs)
    obtain ⟨h0, h1, h2⟩ := hinv.2 hne.1
    have hm : ACTIVE_RANGE_RULES.marginFrames = 2 := rfl
    have hpair := Option.some.inj h
    have hstart : max 0 ((streakLoop candidate 0 0 (-1) (-1)).1 - ACTIVE_RANGE_RULES.marginFrames) = start :=
      congrArg Prod.fst hpair
    have hstop : min ((candidate.length : ℤ) - 1)
        ((streakLoop candidate 0 0 (-1) (-1)).2 + ACTIVE_RANGE_RULES.marginFrames) = stop :=
      congrArg Prod.snd hpair
    rw [← hstart, ← hstop, hm]
    simp only [Nat.cast_zero, zero_add] at h2
    refine ⟨le_max_left _ _, max_le (le_min (by omega) (by omega)) (le_min (by omega) (by omega)),
      min_le_left _ _⟩

/-- C1: for a non-empty metrics sequence, `detectActiveFrameRange` always
returns a range with `0 ≤ start ≤ end ≤ length - 1`, in every tier of the
fallback chain. -/
theorem detectActiveFrameRange_bounds (metrics : List FrameMetrics) (h : metrics ≠ []) :
    0 ≤ (detectActiveFrameRange metrics).1 ∧
    (detectActiveFrameRange metrics).1 ≤ (detectActiveFrameRange metrics).2 ∧
    (detectActiveFrameRange metrics).2 ≤ (metrics.length : ℤ) - 1 := by
  have hlen : metrics.length ≠ 0 := by simpa [List.length_eq_zero] using h
  unfold detectActiveFrameRange
  rw [if_neg hlen]
  cases hstrict : findActiveStreakRange (metrics.map fun m =>
      isBaselineWithinActiveRange m.baselineRatio &&
        decide (ACTIVE_RANGE_RULES.minMotionRatio ≤ m.motionRatio)) with
  | some strictRange =>
    obtain ⟨s, e⟩ := strictRange
    have hb := findActiveStreakRange_some_bounds hstrict
    simp only [List.length_map] at hb
    simp only [hstrict]
    exact hb
  | none =>
    simp only [hstrict]
    cases hmotion : findActiveStreakRange (metrics.map fun m =>
        decide (max ACTIVE_RANGE_RULES.minMotionRatio
            ((metrics.foldl (fun acc m => max acc m.motionRatio) 0) * 0.35) ≤ m.motionRatio ∧
          ACTIVE_RANGE_RULES.minBaselineRatio * 0.5 ≤ m.baselineRatio)) with
    | some motionRange =>
      obtain ⟨s, e⟩ := motionRange
      have hb := findActiveStreakRange_some_bounds hmotion
      simp only [List.length_map] at hb
      simp only [hmotion]
      exact hb
    | none =>
      simp only [hmotion]
      refine ⟨le_refl 0, ?_, le_refl _⟩
      have : 1 ≤ metrics.length := Nat.one_le_iff_ne_zero.mpr hlen
      omega

/-! ### C3 / C4: grid region construction -/

lemma percentCellRect_valid (layout : CardLayoutPercent) (width height : ℤ) (row col : ℕ)
    (hw : 1 ≤ width) (hh : 1 ≤ height) :
    rectWithinFrame (percentCellRect layout width height row col) width height := by
  simp only [percentCellRect, clampInt, rectWithinFrame]
  refine ⟨?_, ?_, ?_, ?_, ?_, ?_⟩ <;> omega

lemma toGridCellRegion_buffer_spec (baseRect : Rect) (width height : ℤ) (buffer : CardCopyBuffer)
    (hbase : rectWithinFrame baseRect width height)
    (hbuf : 0 ≤ buffer.left ∧ 0 ≤ buffer.right ∧ 0 ≤ buffer.top ∧ 0 ≤ buffer.bottom) :
    rectWithinFrame (toGridCellRegion baseRect width height (some buffer)).evalRect width height ∧
    rectWithin (toGridCellRegion baseRect width height (some buffer)).evalRect
      (toGridCellRegion baseRect width height (some buffer)).copyRect := by
  obtain ⟨hl, hlr, hrw, ht, htb, hbh⟩ := hbase
  have hcw : (0 : ℚ) ≤ ((max 1 (baseRect.right - baseRect.left) : ℤ) : ℚ) := by
    have : (0 : ℤ) ≤ max 1 (baseRect.right - baseRect.left) := by omega
    exact_mod_cast this
  have hch : (0 : ℚ) ≤ ((max 1 (baseRect.bottom - baseRect.top) : ℤ) : ℚ) := by
    have : (0 : ℤ) ≤ max 1 (baseRect.bottom - baseRect.top) := by omega
    exact_mod_cast this
  have hd1 : 0 ≤ jsRound (((max 1 (baseRect.right - baseRect.left) : ℤ) : ℚ) * buffer.left) :=
    jsRound_nonneg _ (mul_nonneg hcw hbuf.1)
  have hd2 : 0 ≤ jsRound (((max 1 (baseRect.right - baseRect.left) : ℤ) : ℚ) * buffer.right) :=
    jsRound_nonneg _ (mul_nonneg hcw hbuf.2.1)
  have hd3 : 0 ≤ jsRound (((max 1 (baseRect.bottom - baseRect.top) : ℤ) : ℚ) * buffer.top) :=
    jsRound_nonneg _ (mul_nonneg hch hbuf.2.2.1)
  have hd4 : 0 ≤ jsRound (((max 1 (baseRect.bottom - baseRect.top) : ℤ) : ℚ) * buffer.bottom) :=
    jsRound_nonneg _ (mul_nonneg hch hbuf.2.2.2)
  simp only [toGridCellRegion, clampInt, rectWithinFrame, rectWithin]
  refine ⟨⟨?_, ?_, ?_, ?_, ?_, ?_⟩, ?_, ?_, ?_, ?_⟩ <;> omega

/-- C3: for every positive frame size, `buildGridRegions` returns exactly
`GRID_ROWS × GRID_COLS = 24` regions, and every region's `evalRect` is
contained in the frame bounds and in its own `copyRect`. -/
theorem buildGridRegions_spec (width height : ℤ) (hw : 1 ≤ width) (hh : 1 ≤ height) :
    (buildGridRegions width height).length = 24 ∧
    ∀ region ∈ buildGridRegions width height,
      rectWithinFrame region.evalRect width height ∧
      rectWithin region.evalRect region.copyRect := by
  have hv : isValidCardLayoutPercent cardLayoutPercent = true := by with_unfolding_all decide
  unfold buildGridRegions buildGridRegionsWithLayout
  rw [if_pos hv]
  constructor
  · rw [show List.range GRID_ROWS = [0, 1, 2] from rfl,
      show List.range GRID_COLS = [0, 1, 2, 3, 4, 5, 6, 7] from rfl]
    simp
  · intro region hmem
    simp only [List.mem_flatMap, List.mem_map, List.mem_range] at hmem
    obtain ⟨row, _, col, _, heq⟩ := hmem
    subst heq
    exact toGridCellRegion_buffer_spec _ _ _ _
      (percentCellRect_valid cardLayoutPercent width height row col hw hh)
      (by refine ⟨?_, ?_, ?_, ?_⟩ <;> norm_num [CARD_COPY_BUFFER])

/-- Witness for C3 at the concrete 800 × 300 frame. -/
theorem buildGridRegions_spec_witness :
    (buildGridRegions 800 300).length = 24 ∧
    ∀ region ∈ buildGridRegions 800 300,
      rectWithinFrame region.evalRect 800 300 ∧
      rectWithin region.evalRect region.copyRect :=
  buildGridRegions_spec 800 300 (by decide) (by decide)

/-- C4: every layout rejected by `isValidCardLayoutPercent` makes the builder
return exactly the uniform grid; the layout `left = 0.9, cardWidth = 0.2`
(total width 2.5 > 1) is rejected, and on an 800 × 300 frame the uniform
grid's cell 0 has `copyRect = {left 0, top 0, right 100, bottom 100}`. -/
theorem buildGridRegions_invalid_fallback :
    (∀ (layout : CardLayoutPercent) (width height : ℤ),
        isValidCardLayoutPercent layout = false →
        buildGridRegionsWithLayout layout width height = buildUniformGridRegions width height) ∧
    isValidCardLayoutPercent
      { left := 0.9, top := 0, cardWidth := 0.2, cardHeight := 0.2, gapX := 0, gapY := 0 } = false ∧
    ((buildGridRegionsWithLayout
        { left := 0.9, top := 0, cardWidth := 0.2, cardHeight := 0.2, gapX := 0, gapY := 0 }
        800 300).head?.map fun region => region.copyRect) =
      some { left := 0, top := 0, right := 100, bottom := 100 } := by
  refine ⟨?_, by with_unfolding_all decide, by with_unfolding_all decide⟩
  intro layout width height hinv
  unfold buildGridRegionsWithLayout
  rw [if_neg (by simp [hinv])]

/-- Witness for C4's fallback implication at a concrete rejected layout. -/
theorem buildGridRegions_invalid_fallback_witness :
    buildGridRegionsWithLayout
        { left := 1, top := 0, cardWidth := 0, cardHeight := 1, gapX := 0, gapY := 0 } 5 7 =
      buildUniformGridRegions 5 7 :=
  buildGridRegions_invalid_fallback.1 _ 5 7 (by with_unfolding_all decide)

/-! ### C5: candidate ranking invariants -/

lemma insertSorted_perm (next : CardCandidate) (l : List CardCandidate) :
    (insertSorted next l).Perm (next :: l) := by
  induction l with
  | nil => simp [insertSorted]
  | cons c rest ih =>
    simp only [insertSorted]
    split
    · exact List.Perm.refl _
    · exact (ih.cons c).trans (List.Perm.swap next c rest)

lemma sortCandidates_perm (l : List CardCandidate) : (sortCandidates l).Perm l := by
  induction l with
  | nil => exact List.Perm.refl _
  | cons c rest ih => exact (insertSorted_perm c (sortCandidates rest)).trans (ih.cons c)

lemma insertSorted_pairwise {next : CardCandidate} {l : List CardCandidate}
    (h : l.Pairwise fun a b => b.score ≤ a.score) :
    (insertSorted next l).Pairwise fun a b => b.score ≤ a.score := by
  induction l with
  | nil => simp [insertSorted]
  | cons c rest ih =>
    rw [List.pairwise_cons] at h
    obtain ⟨hc, hrest⟩ := h
    simp only [insertSorted]
    split
    · rename_i hle
      have hle' : c.score ≤ next.score := by simpa [candidateLE] using hle
      rw [List.pairwise_cons]
      refine ⟨?_, List.pairwise_cons.mpr ⟨hc, hrest⟩⟩
      intro b hb
      rcases List.mem_cons.mp hb with rfl | hb'
      · exact hle'
      · exact le_trans (hc b hb') hle'
    · rename_i hgt
      have h2 : next.score ≤ c.score :=
        le_of_not_le (by simpa [candidateLE] using hgt)
      rw [List.pairwise_cons]
      refine ⟨?_, ih hrest⟩
      intro b hb
      rcases List.mem_cons.mp ((insertSorted_perm next rest).mem_iff.mp hb) with rfl | hb'
      · exact h2
      · exact hc b hb'

lemma sortCandidates_pairwise (l : List CardCandidate) :
    (sortCandidates l).Pairwise fun a b => b.score ≤ a.score := by
  induction l with
  | nil => simp [sortCandidates]
  | cons c rest ih => exact insertSorted_pairwise ih

lemma mem_insertCandidate {l : List CardCandidate} {next b : CardCandidate}
    (hb : b ∈ insertCandidate l next) : b ∈ l ∨ b.frameIndex = next.frameIndex := by
  induction l with
  | nil =>
    simp only [insertCandidate, List.mem_singleton] at hb
    subst hb
    exact Or.inr rfl
  | cons c rest ih =>
    simp only [insertCandidate] at hb
    split at hb
    · rename_i heq
      rcases List.mem_cons.mp hb with hb' | hb'
      · subst hb'
        right
        split <;> simpa
      · exact Or.inl (List.mem_cons_of_mem c hb')
    · rcases List.mem_cons.mp hb with hb' | hb'
      · subst hb'
        exact Or.inl (List.mem_cons_self _ _)
      · rcases ih hb' with h | h
        · exact Or.inl (List.mem_cons_of_mem c h)
        · exact Or.inr h

lemma insertCandidate_keys_nodup {l : List CardCandidate} {next : CardCandidate}
    (h : l.Pairwise fun a b => a.frameIndex ≠ b.frameIndex) :
    (insertCandidate l next).Pairwise fun a b => a.frameIndex ≠ b.frameIndex := by
  induction l with
  | nil => simp [insertCandidate]
  | cons c rest ih =>
    rw [List.pairwise_cons] at h
    obtain ⟨hc, hrest⟩ := h
    simp only [insertCandidate]
    split
    · rw [List.pairwise_cons]
      refine ⟨?_, hrest⟩
      intro b hb
      have hne := hc b hb
      split <;> simpa using hne
    · rename_i hne
      rw [List.pairwise_cons]
      refine ⟨?_, ih hrest⟩
      intro b hb
      rcases mem_insertCandidate hb with h' | h'
      · exact hc b h'
      · rw [h']
        exact hne

lemma keysSymm : Symmetric (fun a b : CardCandidate => a.frameIndex ≠ b.frameIndex) :=
  fun _ _ h heq => h heq.symm

lemma pushCardCandidate_preserves {l : List CardCandidate} {next : CardCandidate}
    (h : candidateInvariant l) : candidateInvariant (pushCardCandidate l next) := by
  obtain ⟨_, _, hkeys⟩ := h
  refine ⟨List.length_take_le _ _, ?_, ?_⟩
  · exact (sortCandidates_pairwise _).sublist (List.take_sublist _ _)
  · have hnodup := @insertCandidate_keys_nodup l next hkeys
    have hperm := sortCandidates_perm (insertCandidate l next)
    exact (((hperm.pairwise_iff @keysSymm).mpr hnodup).sublist (List.take_sublist _ _))

lemma foldl_push_invariant (inserts : List CardCandidate) :
    ∀ l, candidateInvariant l → candidateInvariant (inserts.foldl pushCardCandidate l) := by
  induction inserts with
  | nil => exact fun l h => h
  | cons c rest ih => exact fun l h => ih _ (pushCardCandidate_preserves h)

lemma insertCandidate_dup {l : List CardCandidate} {next old : CardCandidate}
    (hkeys : l.Pairwise fun a b => a.frameIndex ≠ b.frameIndex)
    (hold : old ∈ l) (hkey : old.frameIndex = next.frameIndex) :
    (∃ u ∈ insertCandidate l next, u.frameIndex = next.frameIndex ∧
      u.score = max old.score next.score) ∧
    (insertCandidate l next).length = l.length := by
  induction l with
  | nil => cases hold
  | cons c rest ih =>
    rw [List.pairwise_cons] at hkeys
    obtain ⟨hc, hrest⟩ := hkeys
    rcases List.mem_cons.mp hold with rfl | hold'
    · simp only [insertCandidate, if_pos hkey]
      constructor
      · refine ⟨_, List.mem_cons_self _ _, ?_, ?_⟩
        · split <;> simp [hkey]
        · split
          · rename_i hgt
            simpa using (max_eq_right (le_of_lt hgt)).symm
          · rename_i hng
            exact (max_eq_left (not_lt.mp hng)).symm
      · simp
    · have hcne : ¬ c.frameIndex = next.frameIndex := by
        rw [← hkey]
        exact hc old hold'
      simp only [insertCandidate, if_neg hcne]
      obtain ⟨⟨u, hu, hukey, huscore⟩, hlen⟩ := ih hrest hold'
      exact ⟨⟨u, List.mem_cons_of_mem c hu, hukey, huscore⟩, by simp [hlen]⟩

/-- C5: starting from the empty list, any sequence of `pushCardCandidate`
insertions keeps the per-cell candidate list at length ≤ 3, sorted descending
by score, and free of duplicate frame indices; and inserting a candidate
whose frame index is already present keeps the maximum of the old and new
scores for that entry. -/
theorem pushCardCandidate_spec (inserts : List CardCandidate) :
    candidateInvariant (inserts.foldl pushCardCandidate []) ∧
    ∀ next old, old ∈ inserts.foldl pushCardCandidate [] → old.frameIndex = next.frameIndex →
      ∃ u ∈ pushCardCandidate (inserts.foldl pushCardCandidate []) next,
        u.frameIndex = next.frameIndex ∧ u.score = max old.score next.score := by
  have hinv := foldl_push_invariant inserts []
    ⟨by simp [CARD_CANDIDATE_LIMIT], List.Pairwise.nil, List.Pairwise.nil⟩
  refine ⟨hinv, ?_⟩
  intro next old hold hkey
  obtain ⟨hlen, _, hkeys⟩ := hinv
  obtain ⟨⟨u, hu, hukey, huscore⟩, hlen'⟩ := insertCandidate_dup hkeys hold hkey
  have hperm := sortCandidates_perm (insertCandidate (inserts.foldl pushCardCandidate []) next)
  have hfull :
      (sortCandidates (insertCandidate (inserts.foldl pushCardCandidate []) next)).take
        CARD_CANDIDATE_LIMIT =
      sortCandidates (insertCandidate (inserts.foldl pushCardCandidate []) next) := by
    apply List.take_of_length_le
    rw [hperm.length_eq, hlen']
    exact hlen
  refine ⟨u, ?_, hukey, huscore⟩
  show u ∈ (sortCandidates (insertCandidate (inserts.foldl pushCardCandidate []) next)).take
    CARD_CANDIDATE_LIMIT
  rw [hfull]
  exact hperm.mem_iff.mpr hu

/-- Witness for C5's duplicate-insertion clause at concrete candidates. -/
theorem pushCardCandidate_spec_witness :
    ∃ u ∈ pushCardCandidate
        (([({ frameIndex := 1, score := 1/2 } : CardCandidate)]).foldl pushCardCandidate [])
        { frameIndex := 1, score := 1/4 },
      u.frameIndex = ({ frameIndex := 1, score := 1/4 } : CardCandidate).frameIndex ∧
      u.score = max ({ frameIndex := 1, score := 1/2 } : CardCandidate).score
        ({ frameIndex := 1, score := 1/4 } : CardCandidate).score :=
  (pushCardCandidate_spec [{ frameIndex := 1, score := 1/2 }]).2
    { frameIndex := 1, score := 1/4 } { frameIndex := 1, score := 1/2 }
    (by with_unfolding_all decide) rfl

/-! ### C6: the merge-frame filter -/

lemma intRange_length (start stop : ℤ) : (intRange start stop).length = (stop + 1 - start).toNat := by
  unfold intRange
  rw [List.length_map, List.length_range]

lemma mem_intRange {start stop i : ℤ} : i ∈ intRange start stop ↔ start ≤ i ∧ i ≤ stop := by
  unfold intRange
  rw [List.mem_map]
  constructor
  · rintro ⟨k, hk, rfl⟩
    rw [List.mem_range] at hk
    omega
  · rintro ⟨hs, he⟩
    refine ⟨(i - start).toNat, ?_, ?_⟩
    · rw [List.mem_range]
      omega
    · omega

lemma intRange_pairwise (start stop : ℤ) : (intRange start stop).Pairwise (· < ·) := by
  unfold intRange
  simp only [List.pairwise_map]
  refine (List.pairwise_lt_range _).imp ?_
  intro a b h
  omega

lemma intRange_ne_nil {start stop : ℤ} (h : start ≤ stop) : intRange start stop ≠ [] := by
  intro hnil
  have := intRange_length start stop
  rw [hnil] at this
  simp at this
  omega

/-- C6: for every active range with `0 ≤ start ≤ end < length`,
`buildMergeFrameIndices` returns a non-empty strictly increasing list of
indices inside `[start, end]`; it is the baseline-band tier when non-empty,
else the motion-based fallback tier when non-empty, else the whole range. -/
theorem buildMergeFrameIndices_spec (metrics : List FrameMetrics) (range : ℤ × ℤ)
    (_h0 : 0 ≤ range.1) (h1 : range.1 ≤ range.2) (_h2 : range.2 < (metrics.length : ℤ)) :
    buildMergeFrameIndices metrics range ≠ [] ∧
    (buildMergeFrameIndices metrics range).Pairwise (· < ·) ∧
    (∀ i ∈ buildMergeFrameIndices metrics range, range.1 ≤ i ∧ i ≤ range.2) ∧
    (baselineBandIndices metrics range ≠ [] →
      buildMergeFrameIndices metrics range = baselineBandIndices metrics range) ∧
    (baselineBandIndices metrics range = [] → motionFallbackIndices metrics range ≠ [] →
      buildMergeFrameIndices metrics range = motionFallbackIndices metrics range) ∧
    (baselineBandIndices metrics range = [] → motionFallbackIndices metrics range = [] →
      buildMergeFrameIndices metrics range = intRange range.1 range.2) := by
  have hband_pw : (baselineBandIndices metrics range).Pairwise (· < ·) :=
    (intRange_pairwise _ _).filter _
  have hmotion_pw : (motionFallbackIndices metrics range).Pairwise (· < ·) :=
    (intRange_pairwise _ _).filter _
  have hband_sub : ∀ i ∈ baselineBandIndices metrics range, range.1 ≤ i ∧ i ≤ range.2 :=
    fun i hi => mem_intRange.mp (List.mem_of_mem_filter hi)
  have hmotion_sub : ∀ i ∈ motionFallbackIndices metrics range, range.1 ≤ i ∧ i ≤ range.2 :=
    fun i hi => mem_intRange.mp (List.mem_of_mem_filter hi)
  by_cases hb : baselineBandIndices metrics range = []
  · by_cases hm : motionFallbackIndices metrics range = []
    · have hres : buildMergeFrameIndices metrics range = intRange range.1 range.2 := by
        simp only [buildMergeFrameIndices]
        rw [if_neg (by rw [hb]; simp), if_neg (by rw [hm]; simp)]
      rw [hres]
      exact ⟨intRange_ne_nil h1, intRange_pairwise _ _, fun i hi => mem_intRange.mp hi,
        fun hne => absurd hb hne, fun _ hne => absurd hm hne, fun _ _ => rfl⟩
    · have hres : buildMergeFrameIndices metrics range = motionFallbackIndices metrics range := by
        simp only [buildMergeFrameIndices]
        rw [if_neg (by rw [hb]; simp), if_pos (List.length_pos.mpr hm)]
      rw [hres]
      exact ⟨hm, hmotion_pw, hmotion_sub, fun hne => absurd hb hne, fun _ _ => rfl,
        fun _ hnil => absurd hnil hm⟩
  · have hres : buildMergeFrameIndices metrics range = baselineBandIndices metrics range := by
      simp only [buildMergeFrameIndices]
      rw [if_pos (List.length_pos.mpr hb)]
    rw [hres]
    exact ⟨hb, hband_pw, hband_sub, fun _ => rfl, fun hnil => absurd hnil hb,
      fun hnil _ => absurd hnil hb⟩

/-- Witness for C6 at a concrete one-frame metrics list and range. -/
theorem buildMergeFrameIndices_spec_witness :
    buildMergeFrameIndices [{ baselineRatio := 0.05, motionRatio := 0.01 }] (0, 0) ≠ [] ∧
    (buildMergeFrameIndices [{ baselineRatio := 0.05, motionRatio := 0.01 }] (0, 0)).Pairwise (· < ·) ∧
    (∀ i ∈ buildMergeFrameIndices [{ baselineRatio := 0.05, motionRatio := 0.01 }] (0, 0),
      (0 : ℤ) ≤ i ∧ i ≤ 0) ∧
    (baselineBandIndices [{ baselineRatio := 0.05, motionRatio := 0.01 }] (0, 0) ≠ [] →
      buildMergeFrameIndices [{ baselineRatio := 0.05, motionRatio := 0.01 }] (0, 0) =
        baselineBandIndices [{ baselineRatio := 0.05, motionRatio := 0.01 }] (0, 0)) ∧
    (baselineBandIndices [{ baselineRatio := 0.05, motionRatio := 0.01 }] (0, 0) = [] →
      motionFallbackIndices [{ baselineRatio := 0.05, motionRatio := 0.01 }] (0, 0) ≠ [] →
      buildMergeFrameIndices [{ baselineRatio := 0.05, motionRatio := 0.01 }] (0, 0) =
        motionFallbackIndices [{ baselineRatio := 0.05, motionRatio := 0.01 }] (0, 0)) ∧
    (baselineBandIndices [{ baselineRatio := 0.05, motionRatio := 0.01 }] (0, 0) = [] →
      motionFallbackIndices [{ baselineRatio := 0.05, motionRatio := 0.01 }] (0, 0) = [] →
      buildMergeFrameIndices [{ baselineRatio := 0.05, motionRatio := 0.01 }] (0, 0) =
        intRange 0 0) :=
  buildMergeFrameIndices_spec [{ baselineRatio := 0.05, motionRatio := 0.01 }] (0, 0)
    (by decide) (by decide) (by simp)

/-! ### C9: progress reporting -/

lemma analysisProgressValues_mem {frameCount v : ℕ} (hv : v ∈ analysisProgressValues frameCount) :
    1 ≤ v ∧ v ≤ frameCount := by
  unfold analysisProgressValues at hv
  obtain ⟨hv1, _⟩ := List.mem_filter.mp hv
  obtain ⟨i, hi, rfl⟩ := List.mem_map.mp hv1
  rw [List.mem_range] at hi
  omega

lemma analysisProgressValues_pairwise (frameCount : ℕ) :
    (analysisProgressValues frameCount).Pairwise (· ≤ ·) := by
  unfold analysisProgressValues
  refine ((List.Pairwise.filter _ ?_).imp fun h => le_of_lt h)
  rw [List.pairwise_map]
  refine (List.pairwise_lt_range _).imp ?_
  intro a b h
  omega

lemma mergeProgressValue_lower (frameCount mergeFrameCount k : ℕ) :
    frameCount + 1 ≤ mergeProgressValue frameCount mergeFrameCount k := by
  unfold mergeProgressValue
  omega

lemma mergeProgressValue_le {frameCount mergeFrameCount k : ℕ}
    (hf : 1 ≤ frameCount) (hm : 1 ≤ mergeFrameCount) (hk : k ≤ mergeFrameCount) :
    mergeProgressValue frameCount mergeFrameCount k ≤ 2 * frameCount := by
  unfold mergeProgressValue
  have hq : ((k : ℚ) / (mergeFrameCount : ℚ)) * (frameCount : ℚ) ≤ (((frameCount : ℤ)) : ℚ) := by
    push_cast
    rw [div_mul_eq_mul_div, div_le_iff₀ (by positivity)]
    have hkq : (k : ℚ) ≤ (mergeFrameCount : ℚ) := by exact_mod_cast hk
    have hfq : (0 : ℚ) ≤ (frameCount : ℚ) := by positivity
    nlinarith
  have hr := jsRound_le_of_le_intCast hq
  omega

lemma mergeProgressValue_mono {frameCount mergeFrameCount k k' : ℕ} (h : k ≤ k') :
    mergeProgressValue frameCount mergeFrameCount k ≤ mergeProgressValue frameCount mergeFrameCount k' := by
  unfold mergeProgressValue
  have hkq : (k : ℚ) ≤ (k' : ℚ) := by exact_mod_cast h
  have hq : ((k : ℚ) / (mergeFrameCount : ℚ)) * (frameCount : ℚ) ≤
      ((k' : ℚ) / (mergeFrameCount : ℚ)) * (frameCount : ℚ) := by
    gcongr
  have hr := jsRound_mono hq
  omega

lemma mergeProgressValues_mem {frameCount mergeFrameCount v : ℕ}
    (hf : 1 ≤ frameCount) (hm : 1 ≤ mergeFrameCount)
    (hv : v ∈ mergeProgressValues frameCount mergeFrameCount) :
    frameCount + 1 ≤ v ∧ v ≤ 2 * frameCount := by
  unfold mergeProgressValues at hv
  obtain ⟨k, hk, rfl⟩ := List.mem_map.mp hv
  obtain ⟨hk1, _⟩ := List.mem_filter.mp hk
  obtain ⟨i, hi, rfl⟩ := List.mem_map.mp hk1
  rw [List.mem_range] at hi
  exact ⟨mergeProgressValue_lower _ _ _, mergeProgressValue_le hf hm (by omega)⟩

lemma mergeProgressValues_pairwise (frameCount mergeFrameCount : ℕ) :
    (mergeProgressValues frameCount mergeFrameCount).Pairwise (· ≤ ·) := by
  unfold mergeProgressValues
  refine List.Pairwise.map _ (fun a b hab => mergeProgressValue_mono (le_of_lt hab)) ?_
  refine List.Pairwise.filter _ ?_
  rw [List.pairwise_map]
  refine (List.pairwise_lt_range _).imp ?_
  intro a b h
  omega

/-- C9: within one run every `onProgress` event reports
`total = 2 * frameCount`, the reported `current` values never decrease, and
the final event reports `current = total`. -/
theorem progressEvents_spec (frameCount mergeFrameCount : ℕ)
    (hf : 1 ≤ frameCount) (hm : 1 ≤ mergeFrameCount) :
    (∀ event ∈ progressEvents frameCount mergeFrameCount, event.2 = 2 * frameCount) ∧
    ((progressEvents frameCount mergeFrameCount).map Prod.fst).Pairwise (· ≤ ·) ∧
    ((progressEvents frameCount mergeFrameCount).map Prod.fst).getLast? = some (2 * frameCount) := by
  have hmap : (progressEvents frameCount mergeFrameCount).map Prod.fst =
      [0, 1] ++ analysisProgressValues frameCount ++
        mergeProgressValues frameCount mergeFrameCount ++ [2 * frameCount] := by
    unfold progressEvents
    rw [List.map_map]
    simp [Function.comp_def]
  refine ⟨?_, ?_, ?_⟩
  · intro e he
    unfold progressEvents at he
    obtain ⟨c, _, rfl⟩ := List.mem_map.mp he
    rfl
  · rw [hmap, List.append_assoc, List.append_assoc]
    rw [List.pairwise_append]
    refine ⟨by simp, ?_, ?_⟩
    · rw [List.pairwise_append]
      refine ⟨analysisProgressValues_pairwise frameCount, ?_, ?_⟩
      · rw [List.pairwise_append]
        refine ⟨mergeProgressValues_pairwise frameCount mergeFrameCount, by simp, ?_⟩
        intro a ha b hb
        rw [List.mem_singleton] at hb
        subst hb
        exact (mergeProgressValues_mem hf hm ha).2
      · intro a ha b hb
        have ha' := analysisProgressValues_mem ha
        rcases List.mem_append.mp hb with hb' | hb'
        · have := mergeProgressValues_mem hf hm hb'
          omega
        · rw [List.mem_singleton] at hb'
          subst hb'
          omega
    · intro a ha b hb
      have ha' : a ≤ 1 := by
        rcases List.mem_cons.mp ha with rfl | h
        · omega
        · rw [List.mem_singleton] at h
          omega
      rcases List.mem_append.mp hb with hb' | hb'
      · have := analysisProgressValues_mem hb'
        omega
      · rcases List.mem_append.mp hb' with hb'' | hb''
        · have := mergeProgressValues_mem hf hm hb''
          omega
        · rw [List.mem_singleton] at hb''
          subst hb''
          omega
  · rw [hmap]
    exact List.getLast?_concat _

/-- Witness for C9 at a concrete 7-frame run with 3 merge frames. -/
theorem progressEvents_spec_witness :
    (∀ event ∈ progressEvents 7 3, event.2 = 2 * 7) ∧
    ((progressEvents 7 3).map Prod.fst).Pairwise (· ≤ ·) ∧
    ((progressEvents 7 3).map Prod.fst).getLast? = some (2 * 7) :=
  progressEvents_spec 7 3 (by decide) (by decide)

/-! ### C8 / C10: fallback filler and pixel copy behaviour -/

lemma fillUnresolved_resolved {resultPixels baselinePixels fallbackPixels : PixelBuf} {width : ℤ}
    {rect : Rect} {p : ℤ}
    (hres : getBrightnessDiff resultPixels baselinePixels (p * 4) > pixelThreshold)
    (c : ℤ) (hc0 : 0 ≤ c) (hc4 : c < 4) :
    fillUnresolved resultPixels baselinePixels fallbackPixels width rect (p * 4 + c) =
      resultPixels (p * 4 + c) := by
  simp only [fillUnresolved]
  rw [show (p * 4 + c) / 4 = p from by omega]
  rw [if_neg]
  intro h
  exact h.2.2.2.2.1 hres

lemma getBrightnessDiff_congr {f f' g : PixelBuf} {p : ℤ}
    (h : ∀ c : ℤ, 0 ≤ c → c < 4 → f' (p * 4 + c) = f (p * 4 + c)) :
    getBrightnessDiff f' g (p * 4) = getBrightnessDiff f g (p * 4) := by
  have h0 := h 0 (by norm_num) (by norm_num)
  have h1 := h 1 (by norm_num) (by norm_num)
  have h2 := h 2 (by norm_num) (by norm_num)
  rw [show p * 4 + (0 : ℤ) = p * 4 from by ring] at h0
  unfold getBrightnessDiff
  rw [h0, h1, h2]

lemma fill_foldl_candidates {baselinePixels : PixelBuf} {decode : ℤ → PixelBuf} {width : ℤ}
    {rect : Rect} (cands : List CardCandidate) (resultPixels original : PixelBuf) {p : ℤ}
    (hres : getBrightnessDiff original baselinePixels (p * 4) > pixelThreshold)
    (hinv : ∀ c : ℤ, 0 ≤ c → c < 4 → resultPixels (p * 4 + c) = original (p * 4 + c)) :
    ∀ c : ℤ, 0 ≤ c → c < 4 →
      (cands.foldl (fun res candidate =>
          fillUnresolved res baselinePixels (decode candidate.frameIndex) width rect) resultPixels)
        (p * 4 + c) = original (p * 4 + c) := by
  induction cands generalizing resultPixels with
  | nil => exact hinv
  | cons cand rest ih =>
    simp only [List.foldl_cons]
    apply ih
    intro c hc0 hc4
    have hres' : getBrightnessDiff resultPixels baselinePixels (p * 4) > pixelThreshold := by
      rw [getBrightnessDiff_congr hinv]
      exact hres
    rw [fillUnresolved_resolved hres' c hc0 hc4]
    exact hinv c hc0 hc4

lemma fill_foldl_steps {baselinePixels : PixelBuf} {decode : ℤ → PixelBuf} {width : ℤ}
    (steps : List (GridCellRegion × List CardCandidate)) (resultPixels original : PixelBuf) {p : ℤ}
    (hres : getBrightnessDiff original baselinePixels (p * 4) > pixelThreshold)
    (hinv : ∀ c : ℤ, 0 ≤ c → c < 4 → resultPixels (p * 4 + c) = original (p * 4 + c)) :
    ∀ c : ℤ, 0 ≤ c → c < 4 →
      (steps.foldl
          (fun result cell =>
            if cell.2.length < 2 then result
            else
              (cell.2.drop 1).foldl
                (fun res candidate =>
                  fillUnresolved res baselinePixels (decode candidate.frameIndex) width cell.1.copyRect)
                result)
          resultPixels) (p * 4 + c) = original (p * 4 + c) := by
  induction steps generalizing resultPixels with
  | nil => exact hinv
  | cons s rest ih =>
    simp only [List.foldl_cons]
    apply ih
    by_cases hlen : s.2.length < 2
    · rw [if_pos hlen]
      exact hinv
    · rw [if_neg hlen]
      exact fill_foldl_candidates _ _ _ hres hinv

lemma filler_keeps_resolved (baselinePixels : PixelBuf) (decode : ℤ → PixelBuf)
    (width : ℤ) (gridRegions : List GridCellRegion) (cellCandidates : List (List CardCandidate))
    (resultPixels : PixelBuf) (p : ℤ)
    (hres : getBrightnessDiff resultPixels baselinePixels (p * 4) > pixelThreshold) :
    ∀ c : ℤ, 0 ≤ c → c < 4 →
      runFallbackFiller baselinePixels decode width gridRegions cellCandidates resultPixels
          (p * 4 + c) = resultPixels (p * 4 + c) := by
  unfold runFallbackFiller
  exact fill_foldl_steps _ _ _ hres (fun _ _ _ => rfl)

/-- C8: the fallback-filling pass never overwrites an already-resolved pixel:
if the composite pixel `p` already differs from the baseline beyond the
pixel-delta threshold before fallback filling, all four of its channels are
unchanged by the whole pass. -/
theorem runFallbackFiller_preserves_resolved (baselinePixels : PixelBuf) (decode : ℤ → PixelBuf)
    (width : ℤ) (gridRegions : List GridCellRegion) (cellCandidates : List (List CardCandidate))
    (resultPixels : PixelBuf) (p : ℤ)
    (hres : getBrightnessDiff resultPixels baselinePixels (p * 4) > pixelThreshold) :
    ∀ c : ℤ, 0 ≤ c → c < 4 →
      runFallbackFiller baselinePixels decode width gridRegions cellCandidates resultPixels
          (p * 4 + c) = resultPixels (p * 4 + c) :=
  filler_keeps_resolved baselinePixels decode width gridRegions cellCandidates resultPixels p hres

/-- Witness for C8 at a concrete resolved pixel. -/
theorem runFallbackFiller_preserves_resolved_witness :
    runFallbackFiller (fun _ => 0) (fun _ _ => 0) 10
        [{ copyRect := { left := 0, top := 0, right := 1, bottom := 1 },
           evalRect := { left := 0, top := 0, right := 1, bottom := 1 }, evalPixelCount := 1 }]
        [[{ frameIndex := 1, score := 1 }, { frameIndex := 2, score := 1/2 }]]
        (fun _ => 100) (0 * 4 + 1) = (fun _ => (100 : ℚ)) (0 * 4 + 1) :=
  runFallbackFiller_preserves_resolved (fun _ => 0) (fun _ _ => 0) 10 _ _ (fun _ => 100) 0
    (by with_unfolding_all decide) 1 (by decide) (by decide)

lemma copyRectPixels_eq_of_mem {sourcePixels targetPixels : PixelBuf} {width : ℤ} {rect : Rect}
    {offset : ℤ}
    (h : ∃ dy : ℕ, dy < (rect.bottom - rect.top).toNat ∧
      ((rect.top + (dy : ℤ)) * width + rect.left) * 4 ≤ offset ∧
      offset < ((rect.top + (dy : ℤ)) * width + rect.right) * 4) :
    copyRectPixels sourcePixels targetPixels width rect offset = sourcePixels offset := by
  obtain ⟨dy, hdy, h1, h2⟩ := h
  simp only [copyRectPixels]
  split
  · rfl
  · rename_i hfalse
    exact absurd (List.any_eq_true.mpr ⟨dy, List.mem_range.mpr hdy, decide_eq_true ⟨h1, h2⟩⟩) hfalse

lemma copyRectPixels_at {sourcePixels targetPixels : PixelBuf} {width : ℤ} {rect : Rect}
    {y x c : ℤ} (hty : rect.top ≤ y) (hyb : y < rect.bottom) (hlx : rect.left ≤ x)
    (hxr : x < rect.right) (hc0 : 0 ≤ c) (hc4 : c < 4) :
    copyRectPixels sourcePixels targetPixels width rect ((y * width + x) * 4 + c) =
      sourcePixels ((y * width + x) * 4 + c) := by
  refine copyRectPixels_eq_of_mem ⟨(y - rect.top).toNat, by omega, ?_, ?_⟩ <;>
    rw [show rect.top + ((y - rect.top).toNat : ℤ) = y from by omega]
  · have h4 : rect.left * 4 ≤ x * 4 + c := by omega
    have e1 : (y * width + rect.left) * 4 = y * width * 4 + rect.left * 4 := by ring
    have e2 : (y * width + x) * 4 + c = y * width * 4 + (x * 4 + c) := by ring
    rw [e1, e2]
    linarith
  · have h4 : x * 4 + c < rect.right * 4 := by omega
    have e1 : (y * width + rect.right) * 4 = y * width * 4 + rect.right * 4 := by ring
    have e2 : (y * width + x) * 4 + c = y * width * 4 + (x * 4 + c) := by ring
    rw [e1, e2]
    linarith

/-- C10: every pixel written by a fallback-filling step gets alpha 255 and
the candidate frame's RGB channels (the alpha written is the constant 255,
for every candidate buffer); the best-frame copy (`copyRectPixels`) copies
all four channels verbatim from the winning frame. -/
theorem fillAlpha_copyVerbatim :
    (∀ (resultPixels baselinePixels fallbackPixels : PixelBuf) (width : ℤ) (rect : Rect) (y x c : ℤ),
      rect.top ≤ y → y < rect.bottom → rect.left ≤ x → x < rect.right → 0 ≤ x → x < width →
      ¬ getBrightnessDiff resultPixels baselinePixels ((y * width + x) * 4) > pixelThreshold →
      getBrightnessDiff fallbackPixels baselinePixels ((y * width + x) * 4) > pixelThreshold →
      fillUnresolved resultPixels baselinePixels fallbackPixels width rect
          ((y * width + x) * 4 + 3) = 255 ∧
      (0 ≤ c → c < 3 →
        fillUnresolved resultPixels baselinePixels fallbackPixels width rect
            ((y * width + x) * 4 + c) = fallbackPixels ((y * width + x) * 4 + c))) ∧
    (∀ (sourcePixels targetPixels : PixelBuf) (width : ℤ) (rect : Rect) (y x c : ℤ),
      rect.top ≤ y → y < rect.bottom → rect.left ≤ x → x < rect.right → 0 ≤ c → c < 4 →
      copyRectPixels sourcePixels targetPixels width rect ((y * width + x) * 4 + c) =
        sourcePixels ((y * width + x) * 4 + c)) := by
  constructor
  · intro resultPixels baselinePixels fallbackPixels width rect y x c hty hyb hlx hxr hx0 hxw
      hnres hfb
    have hw : (0 : ℤ) < width := lt_of_le_of_lt hx0 hxw
    have hdiv : (y * width + x) / width = y := by
      rw [add_comm, Int.add_mul_ediv_right _ _ (ne_of_gt hw),
        Int.ediv_eq_zero_of_lt hx0 hxw, zero_add]
    have hmod : (y * width + x) % width = x := by
      rw [add_comm, Int.add_mul_emod_self]
      exact Int.emod_eq_of_lt hx0 hxw
    constructor
    · simp only [fillUnresolved]
      rw [show ((y * width + x) * 4 + 3) / 4 = y * width + x from by omega, hdiv, hmod]
      rw [if_pos ⟨hty, hyb, hlx, hxr, hnres, hfb⟩]
      rw [if_pos (show ((y * width + x) * 4 + 3) % 4 = 3 from by omega)]
    · intro hc0 hc3
      simp only [fillUnresolved]
      rw [show ((y * width + x) * 4 + c) / 4 = y * width + x from by omega, hdiv, hmod]
      rw [if_pos ⟨hty, hyb, hlx, hxr, hnres, hfb⟩]
      rw [if_neg (show ¬ ((y * width + x) * 4 + c) % 4 = 3 from by omega)]
  · intro sourcePixels targetPixels width rect y x c hty hyb hlx hxr hc0 hc4
    exact copyRectPixels_at hty hyb hlx hxr hc0 hc4

/-- Witness for C10 at a concrete written pixel. -/
theorem fillAlpha_copyVerbatim_witness :
    fillUnresolved (fun _ => 0) (fun _ => 0) (fun _ => 200) 10
        { left := 0, top := 0, right := 2, bottom := 1 } ((0 * 10 + 1) * 4 + 3) = 255 ∧
    ((0 : ℤ) ≤ 0 → (0 : ℤ) < 3 →
      fillUnresolved (fun _ => 0) (fun _ => 0) (fun _ => 200) 10
          { left := 0, top := 0, right := 2, bottom := 1 } ((0 * 10 + 1) * 4 + 0) =
        (fun _ => (200 : ℚ)) ((0 * 10 + 1) * 4 + 0)) :=
  fillAlpha_copyVerbatim.1 (fun _ => 0) (fun _ => 0) (fun _ => 200) 10
    { left := 0, top := 0, right := 2, bottom := 1 } 0 1 0
    (by decide) (by decide) (by decide) (by decide) (by decide) (by decide)
    (by with_unfolding_all decide) (by with_unfolding_all decide)

/-! ### C7: the two-frame single-cell merge scenario -/

lemma mergeCellsLoop_singleton (currentPixels baselinePixels : PixelBuf)
    (previousMergePixels : Option PixelBuf) (frameMotionRatio : ℚ) (frameIndex width : ℤ)
    (region : GridCellRegion) (best : ℚ) (cands : List CardCandidate) (resultPixels : PixelBuf) :
    mergeCellsLoop currentPixels baselinePixels previousMergePixels frameMotionRatio frameIndex width
        [region] [best] [cands] resultPixels =
      match scoreCell currentPixels baselinePixels previousMergePixels frameMotionRatio width region with
      | none => ([best], [cands], resultPixels)
      | some score =>
        if best < score then
          ([score], [pushCardCandidate cands { frameIndex := frameIndex, score := score }],
            copyRectPixels currentPixels resultPixels width region.copyRect)
        else
          ([best], [pushCardCandidate cands { frameIndex := frameIndex, score := score }],
            resultPixels) := by
  cases hs : scoreCell currentPixels baselinePixels previousMergePixels frameMotionRatio width region with
  | none => simp [mergeCellsLoop, hs]
  | some score =>
    by_cases hb : best < score <;> simp [mergeCellsLoop, hs, hb]

lemma mergeStep_eq {baselinePixels : PixelBuf} {decode : ℤ → PixelBuf} {metrics : List FrameMetrics}
    {width : ℤ} {gridRegions : List GridCellRegion} (resultPixels : PixelBuf) (bestScores : List ℚ)
    (cellCandidates : List (List CardCandidate)) (previousMergePixels : Option PixelBuf)
    (frameIndex : ℤ) {b : List ℚ} {c : List (List CardCandidate)} {r : PixelBuf}
    (h : mergeCellsLoop (decode frameIndex) baselinePixels previousMergePixels
        (metricAt metrics frameIndex).motionRatio frameIndex width
        gridRegions bestScores cellCandidates resultPixels = (b, c, r)) :
    mergeStep baselinePixels decode metrics width gridRegions
        ⟨resultPixels, bestScores, cellCandidates, previousMergePixels⟩ frameIndex =
      ⟨r, b, c, some (decode frameIndex)⟩ := by
  unfold mergeStep
  dsimp only
  rw [h]

/-- C7 (amended): if in a single-cell run over merge frames `[5, 12]` the
cell is scored 2/5 by frame 5 and 9/10 by frame 12 (no rejects), then the
cell's candidate list ends as `[(12, 9/10), (5, 2/5)]`, the composite equals
frame 12's pixels throughout the cell's `copyRect` at the end of the merge
phase, and after the fallback-filling pass the composite still equals
frame 12's pixels at every `copyRect` pixel whose frame-12 value differs
from the baseline beyond the pixel threshold. -/
theorem mergeScenario_spec (width : ℤ) (baselinePixels : PixelBuf) (decode : ℤ → PixelBuf)
    (metrics : List FrameMetrics) (region : GridCellRegion)
    (h1 : scoreCell (decode 5) baselinePixels none (metricAt metrics 5).motionRatio width region =
      some (2/5))
    (h2 : scoreCell (decode 12) baselinePixels (some (decode 5))
      (metricAt metrics 12).motionRatio width region = some (9/10)) :
    (mergePhase baselinePixels decode metrics width [region] [5, 12]).cellCandidates =
      [[{ frameIndex := 12, score := 9/10 }, { frameIndex := 5, score := 2/5 }]] ∧
    (∀ y x c : ℤ, region.copyRect.top ≤ y → y < region.copyRect.bottom →
      region.copyRect.left ≤ x → x < region.copyRect.right → 0 ≤ c → c < 4 →
      (mergePhase baselinePixels decode metrics width [region] [5, 12]).resultPixels
          ((y * width + x) * 4 + c) = decode 12 ((y * width + x) * 4 + c)) ∧
    (∀ y x c : ℤ, region.copyRect.top ≤ y → y < region.copyRect.bottom →
      region.copyRect.left ≤ x → x < region.copyRect.right → 0 ≤ c → c < 4 →
      getBrightnessDiff (decode 12) baselinePixels ((y * width + x) * 4) > pixelThreshold →
      runComposite baselinePixels decode metrics width [region] [5, 12]
          ((y * width + x) * 4 + c) = decode 12 ((y * width + x) * 4 + c)) := by
  have hpush1 : pushCardCandidate [] { frameIndex := 5, score := 2/5 } =
      [{ frameIndex := 5, score := 2/5 }] := rfl
  have hpush2 : pushCardCandidate [{ frameIndex := 5, score := 2/5 }]
      { frameIndex := 12, score := 9/10 } =
      [{ frameIndex := 12, score := 9/10 }, { frameIndex := 5, score := 2/5 }] := by
    with_unfolding_all decide
  have e1 : mergeCellsLoop (decode 5) baselinePixels none (metricAt metrics 5).motionRatio 5 width
      [region] [-1] [[]] baselinePixels =
      ([2/5], [[{ frameIndex := 5, score := 2/5 }]],
        copyRectPixels (decode 5) baselinePixels width region.copyRect) := by
    rw [mergeCellsLoop_singleton, h1]
    dsimp only
    rw [if_pos (by norm_num : (-1 : ℚ) < 2/5), hpush1]
  have e2 : mergeCellsLoop (decode 12) baselinePixels (some (decode 5))
      (metricAt metrics 12).motionRatio 12 width [region] [2/5]
      [[{ frameIndex := 5, score := 2/5 }]]
      (copyRectPixels (decode 5) baselinePixels width region.copyRect) =
      ([9/10], [[{ frameIndex := 12, score := 9/10 }, { frameIndex := 5, score := 2/5 }]],
        copyRectPixels (decode 12)
          (copyRectPixels (decode 5) baselinePixels width region.copyRect) width region.copyRect) := by
    rw [mergeCellsLoop_singleton, h2]
    dsimp only
    rw [if_pos (by norm_num : (2/5 : ℚ) < 9/10), hpush2]
  have hstate : mergePhase baselinePixels decode metrics width [region] [5, 12] =
      ⟨copyRectPixels (decode 12)
          (copyRectPixels (decode 5) baselinePixels width region.copyRect) width region.copyRect,
        [9/10], [[{ frameIndex := 12, score := 9/10 }, { frameIndex := 5, score := 2/5 }]],
        some (decode 12)⟩ := by
    unfold mergePhase
    rw [List.foldl_cons]
    rw [show ([region].map fun _ => (-1 : ℚ)) = [-1] from rfl,
      show ([region].map fun _ => ([] : List CardCandidate)) = [[]] from rfl]
    rw [mergeStep_eq baselinePixels [-1] [[]] none 5 e1]
    rw [List.foldl_cons, List.foldl_nil]
    rw [mergeStep_eq _ [2/5] [[{ frameIndex := 5, score := 2/5 }]] (some (decode 5)) 12 e2]
  have hmergeAt : ∀ y x c : ℤ, region.copyRect.top ≤ y → y < region.copyRect.bottom →
      region.copyRect.left ≤ x → x < region.copyRect.right → 0 ≤ c → c < 4 →
      (mergePhase baselinePixels decode metrics width [region] [5, 12]).resultPixels
          ((y * width + x) * 4 + c) = decode 12 ((y * width + x) * 4 + c) := by
    intro y x c hty hyb hlx hxr hc0 hc4
    rw [hstate]
    exact copyRectPixels_at hty hyb hlx hxr hc0 hc4
  refine ⟨by rw [hstate], hmergeAt, ?_⟩
  intro y x c hty hyb hlx hxr hc0 hc4 hdiff
  unfold runComposite
  rw [hstate]
  have hR : ∀ c' : ℤ, 0 ≤ c' → c' < 4 →
      copyRectPixels (decode 12)
          (copyRectPixels (decode 5) baselinePixels width region.copyRect) width region.copyRect
          ((y * width + x) * 4 + c') = decode 12 ((y * width + x) * 4 + c') := by
    intro c' hc0' hc4'
    exact copyRectPixels_at hty hyb hlx hxr hc0' hc4'
  have hres : getBrightnessDiff
      (copyRectPixels (decode 12)
        (copyRectPixels (decode 5) baselinePixels width region.copyRect) width region.copyRect)
      baselinePixels ((y * width + x) * 4) > pixelThreshold := by
    rw [getBrightnessDiff_congr hR]
    exact hdiff
  rw [filler_keeps_resolved _ _ _ _ _ _ _ hres c hc0 hc4]
  exact hR c hc0 hc4

/-- Witness for C7's amended theorem at the concrete scenario buffers. -/
theorem mergeScenario_spec_witness :
    (mergePhase scenBase scenDecode scenMetrics 10 [scenRegion] [5, 12]).cellCandidates =
      [[{ frameIndex := 12, score := 9/10 }, { frameIndex := 5, score := 2/5 }]] ∧
    (∀ y x c : ℤ, scenRegion.copyRect.top ≤ y → y < scenRegion.copyRect.bottom →
      scenRegion.copyRect.left ≤ x → x < scenRegion.copyRect.right → 0 ≤ c → c < 4 →
      (mergePhase scenBase scenDecode scenMetrics 10 [scenRegion] [5, 12]).resultPixels
          ((y * 10 + x) * 4 + c) = scenDecode 12 ((y * 10 + x) * 4 + c)) ∧
    (∀ y x c : ℤ, scenRegion.copyRect.top ≤ y → y < scenRegion.copyRect.bottom →
      scenRegion.copyRect.left ≤ x → x < scenRegion.copyRect.right → 0 ≤ c → c < 4 →
      getBrightnessDiff (scenDecode 12) scenBase ((y * 10 + x) * 4) > pixelThreshold →
      runComposite scenBase scenDecode scenMetrics 10 [scenRegion] [5, 12]
          ((y * 10 + x) * 4 + c) = scenDecode 12 ((y * 10 + x) * 4 + c)) :=
  mergeScenario_spec 10 scenBase scenDecode scenMetrics scenRegion
    (by with_unfolding_all decide) (by with_unfolding_all decide)

/-- C7 counterexample: at the concrete scenario the hypotheses of the claim
hold (the cell is scored 2/5 by merge frame 5 and 9/10 by merge frame 12,
with no rejected frames, and the candidate list ends `[(12, 9/10), (5, 2/5)]`),
yet at the end of the run — after the fallback-filling pass — the composite
differs from frame 12 at pixel (9, 0) of the cell's `copyRect`: the filler
overwrote it with frame 5's value because frame 12 still matched the
baseline there. -/
theorem mergeScenario_counterexample :
    scoreCell (scenDecode 5) scenBase none (metricAt scenMetrics 5).motionRatio 10 scenRegion =
      some (2/5) ∧
    scoreCell (scenDecode 12) scenBase (some (scenDecode 5))
      (metricAt scenMetrics 12).motionRatio 10 scenRegion = some (9/10) ∧
    (mergePhase scenBase scenDecode scenMetrics 10 [scenRegion] [5, 12]).cellCandidates =
      [[{ frameIndex := 12, score := 9/10 }, { frameIndex := 5, score := 2/5 }]] ∧
    scenRegion.copyRect.top ≤ 0 ∧ (0 : ℤ) < scenRegion.copyRect.bottom ∧
    scenRegion.copyRect.left ≤ 9 ∧ (9 : ℤ) < scenRegion.copyRect.right ∧
    runComposite scenBase scenDecode scenMetrics 10 [scenRegion] [5, 12] ((0 * 10 + 9) * 4 + 0) ≠
      scenDecode 12 ((0 * 10 + 9) * 4 + 0) := by
  with_unfolding_all decide

/-- Witness for C1 at a concrete one-frame metrics list. -/
theorem detectActiveFrameRange_bounds_witness :
    0 ≤ (detectActiveFrameRange [{ baselineRatio := 0, motionRatio := 0 }]).1 ∧
    (detectActiveFrameRange [{ baselineRatio := 0, motionRatio := 0 }]).1 ≤
      (detectActiveFrameRange [{ baselineRatio := 0, motionRatio := 0 }]).2 ∧
    (detectActiveFrameRange [{ baselineRatio := 0, motionRatio := 0 }]).2 ≤
      (([{ baselineRatio := 0, motionRatio := 0 }] : List FrameMetrics).length : ℤ) - 1 :=
  detectActiveFrameRange_bounds [{ baselineRatio := 0, motionRatio := 0 }] (by simp)

end MemoryGame
